import Mathlib

/-!
# Verification of the PNG metadata codec of `exif-exists`

This file gives a shallow embedding of the binary PNG-chunk reader/writer of
`src/App.jsx` (functions `crc32`, `extractPngMetadata`, `injectPngMetadata`,
and the dispatching handlers `handleExtract` / `handleInject`), together with
proofs of the behavioural properties claimed by the specification.

Byte buffers are modelled as `List Nat` with every element below 256; strings
are modelled by their UTF-8 byte sequences.  JavaScript 32-bit arithmetic is
modelled on `Nat` with values kept below `2 ^ 32` (the values stored through
`DataView.setUint32` are the unsigned 32-bit patterns, which is what the
byte-level functions observe).
-/

namespace ExifExists

/-! ## Big-endian 32-bit reads and writes

`u32be buf off` embeds `DataView.getUint32(off)` (big-endian, the DataView
default used throughout the source); `u32beBytes n` is the byte image of
`DataView.setUint32(_, n)`, which truncates to 32 bits. -/

def u32be (buf : List Nat) (off : Nat) : Nat :=
  buf.getD off 0 * 16777216 + buf.getD (off + 1) 0 * 65536 +
    buf.getD (off + 2) 0 * 256 + buf.getD (off + 3) 0

def u32beBytes (n : Nat) : List Nat :=
  [n / 16777216 % 256, n / 65536 % 256, n / 256 % 256, n % 256]

/-! ## CRC-32 (App.jsx lines 22-38)

The table is built, entry by entry, by eight iterations of
`c = (c & 1) ? 0xedb88320 ^ (c >>> 1) : (c >>> 1)`; the checksum folds
`c = crcTable[(c ^ buf[n]) & 0xff] ^ (c >>> 8)` over the bytes starting from
`0xffffffff` and complements the result. -/

def crcStep (c : Nat) : Nat :=
  if c % 2 = 1 then 0xedb88320 ^^^ (c / 2) else c / 2

def crcTableEntry (n : Nat) : Nat := crcStep^[8] n

def crcTable : List Nat := (List.range 256).map crcTableEntry

def crc32 (buf : List Nat) : Nat :=
  (buf.foldl (fun c b => crcTable.getD ((c ^^^ b) % 256) 0 ^^^ (c / 256)) 0xffffffff) ^^^
    0xffffffff

/-- The PNG reference CRC-32, processed one bit at a time: for each input byte
the accumulator is XORed with the byte and then put through eight rounds of
the reflected-polynomial (`0xedb88320`) bit step, with initial value
`0xffffffff` and a final complement.  This is the defining (table-free)
formulation of the checksum required by the PNG specification; the development
proves that the table-driven `crc32` of the source agrees with it. -/
def crc32Reference (buf : List Nat) : Nat :=
  (buf.foldl (fun c b => crcStep^[8] (c ^^^ b)) 0xffffffff) ^^^ 0xffffffff

/-! ## Fixed byte strings -/

/-- The 8-byte PNG signature `89 50 4E 47 0D 0A 1A 0A`. -/
def pngSignature : List Nat := [0x89, 0x50, 0x4e, 0x47, 0x0d, 0x0a, 0x1a, 0x0a]

/-- ASCII bytes of the chunk type `"tEXt"`. -/
def tEXtType : List Nat := [0x74, 0x45, 0x58, 0x74]

/-- ASCII bytes of the keyword `"parameters"`. -/
def parametersKeyword : List Nat :=
  [0x70, 0x61, 0x72, 0x61, 0x6d, 0x65, 0x74, 0x65, 0x72, 0x73]

/-- ASCII bytes of the keyword `"prompt"`. -/
def promptKeyword : List Nat := [0x70, 0x72, 0x6f, 0x6d, 0x70, 0x74]

/-- ASCII bytes of the keyword `"workflow"`. -/
def workflowKeyword : List Nat := [0x77, 0x6f, 0x72, 0x6b, 0x66, 0x6c, 0x6f, 0x77]

/-! ## PNG extraction (App.jsx lines 47-89) -/

/-- Index of the first `0x00` byte, embedding the separator search loop of
lines 67-73 (`for i in [0, length): if chunkData[i] === 0 ...`). -/
def firstNull : List Nat → Option Nat
  | [] => none
  | b :: rest => if b = 0 then some 0 else (firstNull rest).map (· + 1)

/-- The signature test of line 53:
`view.getUint32(0) === 0x89504e47 && view.getUint32(4) === 0x0d0a1a0a`. -/
def validSignature (buf : List Nat) : Prop :=
  u32be buf 0 = 0x89504e47 ∧ u32be buf 4 = 0x0d0a1a0a

instance (buf : List Nat) : Decidable (validSignature buf) :=
  inferInstanceAs (Decidable (_ = _ ∧ _ = _))

/-- The chunk-walking loop of lines 60-86.  At each offset it reads the
4-byte big-endian length, compares the 4 type bytes with `"tEXt"`, splits the
chunk data at the first `0x00` into keyword and text, returns the text the
first time the keyword is `"parameters"` (the `break`), and otherwise advances
by `12 + length`. -/
def extractScan (buf : List Nat) (offset : Nat) : Option (List Nat) :=
  if h : offset < buf.length then
    if (buf.drop (offset + 4)).take 4 = tEXtType then
      match firstNull ((buf.drop (offset + 8)).take (u32be buf offset)) with
      | some i =>
        if ((buf.drop (offset + 8)).take (u32be buf offset)).take i = parametersKeyword then
          some (((buf.drop (offset + 8)).take (u32be buf offset)).drop (i + 1))
        else extractScan buf (offset + 12 + u32be buf offset)
      | none => extractScan buf (offset + 12 + u32be buf offset)
    else extractScan buf (offset + 12 + u32be buf offset)
  else none
termination_by buf.length - offset
decreasing_by all_goals omega

/-- Result of `extractPngMetadata`: the thrown `"유효한 PNG 파일이 아닙니다."`
error on a bad signature, or the returned value — `some text` standing for
`{type: 'png', data: text}` and `none` for `null`. -/
inductive ExtractResult
  | invalidFormat
  | ok (meta : Option (List Nat))
  deriving DecidableEq

/-- `extractPngMetadata` (lines 47-89).  Note the final line 88
`return parameters ? {type: 'png', data: parameters} : null`: an *empty*
extracted text is falsy in JavaScript, so it yields `null` as well. -/
def extractPngMetadata (buf : List Nat) : ExtractResult :=
  if validSignature buf then
    .ok (match extractScan buf 8 with
         | some t => if t = [] then none else some t
         | none => none)
  else .invalidFormat

/-! ## PNG injection (App.jsx lines 92-128)

`injectPngMetadata` builds one `tEXt` chunk with the fixed keyword
`"parameters"` and the UTF-8 bytes of the metadata string, then concatenates
`original[0, 8) ++ chunk ++ original[8, end)` — the new chunk is inserted
immediately after the 8-byte signature (the source comment: "Simple prepend
after signature").  There is no signature validation on this path. -/

def injectPngMetadata (buf : List Nat) (metadataString : List Nat) : List Nat :=
  buf.take 8 ++
    (u32beBytes (parametersKeyword.length + 1 + metadataString.length) ++
      tEXtType ++ parametersKeyword ++ [0] ++ metadataString ++
      u32beBytes (crc32 (tEXtType ++ parametersKeyword ++ [0] ++ metadataString))) ++
    buf.drop 8

/-! ## Format dispatch (App.jsx `handleExtract` lines 187-215 and
`handleInject` lines 218-254) -/

/-- The declared type of a dropped file (`file.type`). -/
inductive FileType
  | png
  | jpeg
  | webp
  deriving DecidableEq

/-- Variant tag of a cached metadata value (`cachedMetadata.type`). -/
inductive MetaTag
  | png
  | jpg
  deriving DecidableEq

/-- The cached metadata: `{type:'png', data: string}` with the extracted text,
or `{type:'jpg', data: exifObj}` whose EXIF payload is outside the PNG codec
and kept opaque. -/
inductive Metadata
  | png (data : List Nat)
  | jpg
  deriving DecidableEq

def Metadata.tag : Metadata → MetaTag
  | .png _ => .png
  | .jpg => .jpg

/-- Observable outcome of `handleExtract`: which status is set and what is
cached. -/
inductive ExtractOutcome
  | cached (m : Metadata)
  | noMetadata
  | invalidFormat
  | webpWarning
  | jpgDelegate
  deriving DecidableEq

/-- `handleExtract` for the PNG and WebP branches.  The `image/webp` branch
(lines 198-201) sets the warning status and returns before any codec work;
the JPEG branch delegates to the external piexif adapter and is abstracted. -/
def handleExtract (ft : FileType) (buf : List Nat) : ExtractOutcome :=
  match ft with
  | .png =>
    match extractPngMetadata buf with
    | .invalidFormat => .invalidFormat
    | .ok none => .noMetadata
    | .ok (some t) => .cached (.png t)
  | .jpeg => .jpgDelegate
  | .webp => .webpWarning

/-- Observable outcome of `handleInject`:
* `noCache` — the guard `if (!cachedMetadata)` fired;
* `formatMismatch` — one of the two `형식 불일치` (format mismatch) error
  statuses of lines 230-237, set before any byte work, with no output;
* `output bytes` — a processed PNG image was produced;
* `jpgDelegate` — the JPEG path was handed to the piexif adapter;
* `silent` — `finalBlob` stayed `null`, so the function returns with no
  status change and no output (this is what happens for a `webp` target:
  no branch of lines 230-243 applies to it). -/
inductive InjectOutcome
  | noCache
  | formatMismatch
  | output (bytes : List Nat)
  | jpgDelegate
  | silent
  deriving DecidableEq

/-- `handleInject` (lines 218-254). -/
def handleInject (cached : Option Metadata) (ft : FileType) (buf : List Nat) :
    InjectOutcome :=
  match cached with
  | none => .noCache
  | some m =>
    if ft = .png ∧ m.tag ≠ .png then .formatMismatch
    else if ft = .jpeg ∧ m.tag ≠ .jpg then .formatMismatch
    else
      match ft, m with
      | .png, .png d => .output (injectPngMetadata buf d)
      | .png, .jpg => .silent
      | .jpeg, _ => .jpgDelegate
      | .webp, _ => .silent

/-! ## A chunk-level view of PNG buffers

For stating and proving the scanner's behaviour we describe well-formed chunk
sequences abstractly: a chunk is a 4-byte type tag plus data, serialised as
`length ++ type ++ data ++ crc`. -/

structure RawChunk where
  ty : List Nat
  data : List Nat
  deriving DecidableEq

/-- Serialisation of one chunk, with its correct CRC. -/
def chunkBytes (c : RawChunk) : List Nat :=
  u32beBytes c.data.length ++ c.ty ++ c.data ++ u32beBytes (crc32 (c.ty ++ c.data))

def chunksBytes : List RawChunk → List Nat
  | [] => []
  | c :: cs => chunkBytes c ++ chunksBytes cs

/-- The structural well-formedness the scanner lemmas need: a 4-byte type tag
and a data length representable in the 32-bit length field. -/
def RawChunk.wf (c : RawChunk) : Prop :=
  c.ty.length = 4 ∧ c.data.length < 4294967296

/-- The keyword a `tEXt` chunk offers: the bytes before the first `0x00` of
its data, or `none` for a non-`tEXt` chunk or one with no `0x00` separator. -/
def chunkKeyword (c : RawChunk) : Option (List Nat) :=
  if c.ty = tEXtType then (firstNull c.data).map (fun i => c.data.take i) else none

/-- What the scanner's loop body yields on one chunk: `some text` exactly for
a `tEXt` chunk with a `0x00` separator whose keyword is `"parameters"`. -/
def chunkText (c : RawChunk) : Option (List Nat) :=
  if c.ty = tEXtType then
    match firstNull c.data with
    | some i =>
      if c.data.take i = parametersKeyword then some (c.data.drop (i + 1)) else none
    | none => none
  else none

/-- Text of the first `"parameters"` `tEXt` chunk of a chunk list. -/
def firstParamsText : List RawChunk → Option (List Nat)
  | [] => none
  | c :: cs =>
    match chunkText c with
    | some t => some t
    | none => firstParamsText cs

/-- Chunk-level model of the full extraction result, including the final
truthiness coercion of line 88 (empty text reported as `null`). -/
def extractModel (cs : List RawChunk) : Option (List Nat) :=
  match firstParamsText cs with
  | some t => if t = [] then none else some t
  | none => none

instance (c : RawChunk) : Decidable c.wf :=
  inferInstanceAs (Decidable (_ = _ ∧ _ < _))

/-! ## Concrete test images -/

/-- A minimal IHDR chunk body: 1x1, bit depth 8, greyscale. -/
def ihdrChunk : RawChunk :=
  ⟨[0x49, 0x48, 0x44, 0x52], [0, 0, 0, 1, 0, 0, 0, 1, 8, 0, 0, 0, 0]⟩

def idatChunk : RawChunk :=
  ⟨[0x49, 0x44, 0x41, 0x54], [120, 156, 99, 0, 0, 0, 2, 0, 1]⟩

def iendChunk : RawChunk := ⟨[0x49, 0x45, 0x4e, 0x44], []⟩

/-- A synthetic minimal PNG: signature + IHDR + IDAT + IEND, no `tEXt`. -/
def minimalPng : List Nat :=
  pngSignature ++ chunksBytes [ihdrChunk, idatChunk, iendChunk]


end ExifExists

namespace ExifExists

/-! ## Correctness of the table-driven CRC-32 -/

lemma xor_mod_two (a b : Nat) : (a ^^^ b) % 2 = (a % 2) ^^^ (b % 2) := by
  rw [← Nat.and_one_is_mod, ← Nat.and_one_is_mod, ← Nat.and_one_is_mod]
  exact Nat.and_xor_distrib_right

lemma crcStep_xor (a b : Nat) : crcStep (a ^^^ b) = crcStep a ^^^ crcStep b := by
  have hab := xor_mod_two a b
  rcases Nat.mod_two_eq_zero_or_one a with ha | ha <;>
    rcases Nat.mod_two_eq_zero_or_one b with hb | hb <;>
      rw [ha, hb] at hab <;>
        simp only [Nat.zero_xor, Nat.xor_zero, Nat.xor_self] at hab
  · simp [crcStep, hab, ha, hb, Nat.xor_div_two]
  · simp only [crcStep, hab, ha, hb]
    norm_num
    rw [Nat.xor_div_two, ← Nat.xor_assoc, Nat.xor_comm 0xedb88320 (a / 2), Nat.xor_assoc]
  · simp only [crcStep, hab, ha, hb]
    norm_num
    rw [Nat.xor_div_two, ← Nat.xor_assoc]
  · simp only [crcStep, hab, ha, hb]
    norm_num
    rw [Nat.xor_div_two, Nat.xor_comm 0xedb88320 (a / 2), Nat.xor_assoc,
      ← Nat.xor_assoc 0xedb88320 0xedb88320, Nat.xor_self, Nat.zero_xor]

lemma crcStep_iterate_xor (k a b : Nat) :
    crcStep^[k] (a ^^^ b) = crcStep^[k] a ^^^ crcStep^[k] b := by
  induction k generalizing a b with
  | zero => rfl
  | succ k ih =>
    rw [Function.iterate_succ_apply, Function.iterate_succ_apply,
      Function.iterate_succ_apply, crcStep_xor, ih]

lemma crcStep_two_mul (m : Nat) : crcStep (2 * m) = m := by
  simp [crcStep, Nat.mul_mod_right]

lemma crcStep_iterate_mul_pow (k m : Nat) : crcStep^[k] (m * 2 ^ k) = m := by
  induction k generalizing m with
  | zero => simp
  | succ k ih =>
    rw [Function.iterate_succ_apply]
    have h : m * 2 ^ (k + 1) = 2 * (m * 2 ^ k) := by ring
    rw [h, crcStep_two_mul, ih]

lemma xor_low_high (x : Nat) : x % 256 ^^^ x / 256 * 256 = x := by
  apply Nat.eq_of_testBit_eq
  intro i
  have h256 : (256 : Nat) = 2 ^ 8 := by norm_num
  rw [Nat.testBit_xor, h256]
  have hdiv : x / 2 ^ 8 * 2 ^ 8 = 2 ^ 8 * (x / 2 ^ 8) + 0 := by ring
  rw [hdiv, Nat.testBit_mul_pow_two_add _ (by norm_num : (0 : Nat) < 2 ^ 8),
    Nat.testBit_mod_two_pow]
  rcases Nat.lt_or_ge i 8 with h | h
  · rw [if_pos h]
    simp [h]
  · rw [if_neg (Nat.not_lt.mpr h)]
    have hx : (x / 2 ^ 8).testBit (i - 8) = x.testBit i := by
      rw [← Nat.shiftRight_eq_div_pow, Nat.testBit_shiftRight]
      congr 1
      omega
    rw [hx]
    simp [Nat.not_lt.mpr h]

lemma xor_div_256 (a b : Nat) (hb : b < 256) : (a ^^^ b) / 256 = a / 256 := by
  apply Nat.eq_of_testBit_eq
  intro i
  have h256 : (256 : Nat) = 2 ^ 8 := by norm_num
  rw [h256, ← Nat.shiftRight_eq_div_pow, ← Nat.shiftRight_eq_div_pow,
    Nat.testBit_shiftRight, Nat.testBit_shiftRight, Nat.testBit_xor]
  have hbb : b.testBit (8 + i) = false :=
    Nat.testBit_lt_two_pow
      (lt_of_lt_of_le (h256 ▸ hb) (Nat.pow_le_pow_right (by norm_num) (by omega)))
  simp [hbb]

lemma crcTable_getD (n : Nat) (h : n < 256) : crcTable.getD n 0 = crcTableEntry n := by
  unfold crcTable
  rw [List.getD_eq_getElem _ _ (by simpa using h)]
  simp

lemma crcUpdate_eq (c b : Nat) (hb : b < 256) :
    crcTable.getD ((c ^^^ b) % 256) 0 ^^^ c / 256 = crcStep^[8] (c ^^^ b) := by
  have h1 : crcStep^[8] (c ^^^ b) =
      crcStep^[8] ((c ^^^ b) % 256) ^^^ (c ^^^ b) / 256 := by
    conv_lhs => rw [← xor_low_high (c ^^^ b)]
    rw [crcStep_iterate_xor]
    have h2 := crcStep_iterate_mul_pow 8 ((c ^^^ b) / 256)
    rw [show (2 : Nat) ^ 8 = 256 from by norm_num] at h2
    rw [h2]
  rw [h1, xor_div_256 c b hb, crcTable_getD _ (Nat.mod_lt _ (by norm_num))]
  rfl

lemma crcFold_eq (l : List Nat) (hl : ∀ b ∈ l, b < 256) (c : Nat) :
    l.foldl (fun c b => crcTable.getD ((c ^^^ b) % 256) 0 ^^^ c / 256) c
      = l.foldl (fun c b => crcStep^[8] (c ^^^ b)) c := by
  induction l generalizing c with
  | nil => rfl
  | cons b l ih =>
    simp only [List.foldl_cons]
    rw [crcUpdate_eq c b (hl b (List.mem_cons_self _ _))]
    exact ih (fun x hx => hl x (List.mem_cons_of_mem _ hx)) _

lemma crc32_eq_reference (buf : List Nat) (hb : ∀ b ∈ buf, b < 256) :
    crc32 buf = crc32Reference buf := by
  unfold crc32 crc32Reference
  rw [crcFold_eq buf hb]

end ExifExists

namespace ExifExists

/-! ## Reading serialised chunks back -/

lemma u32beBytes_length (n : Nat) : (u32beBytes n).length = 4 := rfl

lemma chunkBytes_length (c : RawChunk) (hty : c.ty.length = 4) :
    (chunkBytes c).length = 12 + c.data.length := by
  simp [chunkBytes, u32beBytes, hty]
  omega

lemma getD_append_add (pre z : List Nat) (k : Nat) :
    (pre ++ z).getD (pre.length + k) 0 = z.getD k 0 := by
  rw [List.getD_append_right _ _ _ _ (Nat.le_add_right _ _), Nat.add_sub_cancel_left]

lemma u32be_append (pre z : List Nat) (k : Nat) :
    u32be (pre ++ z) (pre.length + k) = u32be z k := by
  unfold u32be
  have e1 : pre.length + k + 1 = pre.length + (k + 1) := by omega
  have e2 : pre.length + k + 2 = pre.length + (k + 2) := by omega
  have e3 : pre.length + k + 3 = pre.length + (k + 3) := by omega
  rw [e1, e2, e3, getD_append_add, getD_append_add, getD_append_add, getD_append_add]

lemma u32be_u32beBytes (n : Nat) (hn : n < 4294967296) (z : List Nat) :
    u32be (u32beBytes n ++ z) 0 = n := by
  show n / 16777216 % 256 * 16777216 + n / 65536 % 256 * 65536 +
      n / 256 % 256 * 256 + n % 256 = n
  omega

lemma drop_append_add (pre z : List Nat) (k : Nat) :
    (pre ++ z).drop (pre.length + k) = z.drop k := by
  induction pre with
  | nil => simp
  | cons a l ih =>
    have e : (a :: l).length + k = (l.length + k) + 1 := by
      simp
      omega
    rw [List.cons_append, e, List.drop_succ_cons, ih]

/-- The serialised chunk, right-associated for positional reasoning. -/
lemma chunk_decomp (c : RawChunk) (rest : List Nat) :
    chunkBytes c ++ rest =
      u32beBytes c.data.length ++
        (c.ty ++ (c.data ++ (u32beBytes (crc32 (c.ty ++ c.data)) ++ rest))) := by
  simp [chunkBytes, List.append_assoc]

lemma scan_read_length (pre : List Nat) (c : RawChunk) (rest : List Nat)
    (hd : c.data.length < 4294967296) :
    u32be (pre ++ (chunkBytes c ++ rest)) pre.length = c.data.length := by
  have h := u32be_append pre (chunkBytes c ++ rest) 0
  rw [Nat.add_zero] at h
  rw [h, chunk_decomp, u32be_u32beBytes _ hd]

lemma scan_read_type (pre : List Nat) (c : RawChunk) (rest : List Nat)
    (hty : c.ty.length = 4) :
    ((pre ++ (chunkBytes c ++ rest)).drop (pre.length + 4)).take 4 = c.ty := by
  rw [drop_append_add, chunk_decomp, List.drop_left' (u32beBytes_length _),
    List.take_left' hty]

lemma scan_read_data (pre : List Nat) (c : RawChunk) (rest : List Nat)
    (hty : c.ty.length = 4) :
    ((pre ++ (chunkBytes c ++ rest)).drop (pre.length + 8)).take c.data.length = c.data := by
  rw [drop_append_add, chunk_decomp, ← List.append_assoc (u32beBytes _) c.ty]
  have h8 : (u32beBytes c.data.length ++ c.ty).length = 8 := by
    simp [u32beBytes_length, hty]
  rw [List.drop_left' h8, List.take_left' rfl]

lemma scan_length_lower (pre : List Nat) (c : RawChunk) (rest : List Nat)
    (hty : c.ty.length = 4) :
    pre.length < (pre ++ (chunkBytes c ++ rest)).length := by
  simp [List.length_append, chunkBytes_length c hty]

lemma extractScan_step_found (pre : List Nat) (c : RawChunk) (rest : List Nat)
    (hty : c.ty.length = 4) (hd : c.data.length < 4294967296)
    (t : List Nat) (hct : chunkText c = some t) :
    extractScan (pre ++ (chunkBytes c ++ rest)) pre.length = some t := by
  unfold chunkText at hct
  by_cases htx : c.ty = tEXtType
  · rw [if_pos htx] at hct
    rw [extractScan]
    rw [dif_pos (scan_length_lower pre c rest hty)]
    rw [scan_read_type pre c rest hty, if_pos htx,
      scan_read_length pre c rest hd, scan_read_data pre c rest hty]
    cases hfn : firstNull c.data with
    | none => rw [hfn] at hct; exact absurd hct (by simp)
    | some i =>
      rw [hfn] at hct
      simp only at hct
      by_cases hkw : c.data.take i = parametersKeyword
      · rw [if_pos hkw] at hct
        simp only [hfn]
        rw [if_pos hkw]
        exact hct
      · rw [if_neg hkw] at hct
        exact absurd hct (by simp)
  · rw [if_neg htx] at hct
    exact absurd hct (by simp)

lemma extractScan_step_skip (pre : List Nat) (c : RawChunk) (rest : List Nat)
    (hty : c.ty.length = 4) (hd : c.data.length < 4294967296)
    (hct : chunkText c = none) :
    extractScan (pre ++ (chunkBytes c ++ rest)) pre.length =
      extractScan (pre ++ (chunkBytes c ++ rest)) (pre.length + 12 + c.data.length) := by
  unfold chunkText at hct
  rw [extractScan]
  rw [dif_pos (scan_length_lower pre c rest hty)]
  rw [scan_read_type pre c rest hty, scan_read_length pre c rest hd]
  by_cases htx : c.ty = tEXtType
  · rw [if_pos htx] at hct ⊢
    rw [scan_read_data pre c rest hty]
    cases hfn : firstNull c.data with
    | none => simp only [hfn]
    | some i =>
      rw [hfn] at hct
      simp only at hct
      by_cases hkw : c.data.take i = parametersKeyword
      · rw [if_pos hkw] at hct
        exact absurd hct (by simp)
      · simp only [hfn]
        rw [if_neg hkw]
  · rw [if_neg htx]

lemma extractScan_nil (pre : List Nat) : extractScan pre pre.length = none := by
  rw [extractScan]
  rw [dif_neg (Nat.lt_irrefl _)]

lemma extractScan_chunks (cs : List RawChunk) (pre : List Nat)
    (hwf : ∀ c ∈ cs, c.wf) :
    extractScan (pre ++ chunksBytes cs) pre.length = firstParamsText cs := by
  induction cs generalizing pre with
  | nil =>
    simp only [chunksBytes]
    rw [List.append_nil]
    exact extractScan_nil pre
  | cons c cs ih =>
    obtain ⟨hty, hd⟩ := hwf c (List.mem_cons_self _ _)
    have hwf' : ∀ x ∈ cs, x.wf := fun x hx => hwf x (List.mem_cons_of_mem _ hx)
    simp only [chunksBytes]
    cases hct : chunkText c with
    | some t =>
      rw [extractScan_step_found pre c _ hty hd t hct]
      simp [firstParamsText, hct]
    | none =>
      rw [extractScan_step_skip pre c _ hty hd hct]
      have hre : pre ++ (chunkBytes c ++ chunksBytes cs) =
          (pre ++ chunkBytes c) ++ chunksBytes cs := (List.append_assoc _ _ _).symm
      have hoff : pre.length + 12 + c.data.length = (pre ++ chunkBytes c).length := by
        simp [List.length_append, chunkBytes_length c hty]
        omega
      rw [hre, hoff, ih (pre ++ chunkBytes c) hwf']
      simp [firstParamsText, hct]

lemma validSignature_append (z : List Nat) : validSignature (pngSignature ++ z) := by
  constructor
  · show (137 * 16777216 + 80 * 65536 + 78 * 256 + 71 : Nat) = 0x89504e47
    decide
  · show (13 * 16777216 + 10 * 65536 + 26 * 256 + 10 : Nat) = 0x0d0a1a0a
    decide

/-- Chunk-level characterisation of the whole extraction: on a buffer made of
the signature followed by well-formed chunks, `extractPngMetadata` returns
exactly what the chunk-level model says. -/
lemma extract_chunks (cs : List RawChunk) (hwf : ∀ c ∈ cs, c.wf) :
    extractPngMetadata (pngSignature ++ chunksBytes cs) = .ok (extractModel cs) := by
  unfold extractPngMetadata
  rw [if_pos (validSignature_append _)]
  have h8 : (8 : Nat) = pngSignature.length := rfl
  rw [h8, extractScan_chunks cs pngSignature hwf]
  rfl

end ExifExists

namespace ExifExists

/-! ## Scanning past non-matching chunks, and the found case -/

lemma extractScan_skip_chunks (cs : List RawChunk) (pre tail : List Nat)
    (hwf : ∀ c ∈ cs, c.wf) (hnone : ∀ c ∈ cs, chunkText c = none) :
    extractScan (pre ++ (chunksBytes cs ++ tail)) pre.length =
      extractScan (pre ++ (chunksBytes cs ++ tail))
        (pre.length + (chunksBytes cs).length) := by
  induction cs generalizing pre with
  | nil =>
    simp only [chunksBytes]
    rw [List.nil_append, List.length_nil, Nat.add_zero]
  | cons c cs ih =>
    obtain ⟨hty, hd⟩ := hwf c (List.mem_cons_self _ _)
    have hwf' : ∀ x ∈ cs, x.wf := fun x hx => hwf x (List.mem_cons_of_mem _ hx)
    have hnone' : ∀ x ∈ cs, chunkText x = none :=
      fun x hx => hnone x (List.mem_cons_of_mem _ hx)
    simp only [chunksBytes]
    rw [List.append_assoc (chunkBytes c)]
    rw [extractScan_step_skip pre c _ hty hd (hnone c (List.mem_cons_self _ _))]
    have hoff : pre.length + 12 + c.data.length = (pre ++ chunkBytes c).length := by
      simp [List.length_append, chunkBytes_length c hty]
      omega
    have hre : pre ++ (chunkBytes c ++ (chunksBytes cs ++ tail)) =
        (pre ++ chunkBytes c) ++ (chunksBytes cs ++ tail) := (List.append_assoc _ _ _).symm
    rw [hre, hoff, ih (pre ++ chunkBytes c) hwf' hnone']
    congr 1
    simp [List.length_append, chunkBytes_length c hty]
    omega

lemma extractScan_skip_then_found (csp : List RawChunk) (c : RawChunk) (rest : List Nat)
    (hwf : ∀ x ∈ csp, x.wf) (hnone : ∀ x ∈ csp, chunkText x = none)
    (hty : c.ty.length = 4) (hd : c.data.length < 4294967296)
    (t : List Nat) (hct : chunkText c = some t) :
    extractScan (pngSignature ++ (chunksBytes csp ++ (chunkBytes c ++ rest))) 8 = some t := by
  have h8 : (8 : Nat) = pngSignature.length := rfl
  rw [h8]
  rw [extractScan_skip_chunks csp pngSignature (chunkBytes c ++ rest) hwf hnone]
  have hre : pngSignature ++ (chunksBytes csp ++ (chunkBytes c ++ rest)) =
      (pngSignature ++ chunksBytes csp) ++ (chunkBytes c ++ rest) :=
    (List.append_assoc _ _ _).symm
  have hoff : pngSignature.length + (chunksBytes csp).length =
      (pngSignature ++ chunksBytes csp).length := (List.length_append _ _).symm
  rw [hre, hoff, extractScan_step_found _ c rest hty hd t hct]

/-! ## A buffer with a valid signature starts with the signature bytes -/

lemma getD_lt_256 (buf : List Nat) (hb : ∀ x ∈ buf, x < 256) (i : Nat) :
    buf.getD i 0 < 256 := by
  rcases Nat.lt_or_ge i buf.length with h | h
  · rw [List.getD_eq_getElem _ _ h]
    exact hb _ (List.getElem_mem h)
  · rw [List.getD_eq_default _ _ h]
    norm_num

lemma length_of_validSignature (buf : List Nat) (hb : ∀ x ∈ buf, x < 256)
    (hs : validSignature buf) : 8 ≤ buf.length := by
  obtain ⟨h1, h2⟩ := hs
  unfold u32be at h2
  rw [show (4 : Nat) + 1 = 5 from rfl, show (4 : Nat) + 2 = 6 from rfl,
    show (4 : Nat) + 3 = 7 from rfl] at h2
  by_contra hcon
  push_neg at hcon
  have h7 : buf.getD 7 0 = 0 := List.getD_eq_default _ _ (by omega)
  have b4 := getD_lt_256 buf hb 4
  have b5 := getD_lt_256 buf hb 5
  have b6 := getD_lt_256 buf hb 6
  omega

lemma take8_signature (buf : List Nat) (hb : ∀ x ∈ buf, x < 256)
    (hs : validSignature buf) : buf.take 8 = pngSignature := by
  have hlen := length_of_validSignature buf hb hs
  obtain ⟨h1, h2⟩ := hs
  rcases buf with _ | ⟨x0, _ | ⟨x1, _ | ⟨x2, _ | ⟨x3, _ | ⟨x4, _ | ⟨x5, _ | ⟨x6, _ | ⟨x7, rest⟩⟩⟩⟩⟩⟩⟩⟩ <;>
    first
      | (exfalso; simp at hlen; done)
      | skip
  have f1 : u32be (x0 :: x1 :: x2 :: x3 :: x4 :: x5 :: x6 :: x7 :: rest) 0 =
      x0 * 16777216 + x1 * 65536 + x2 * 256 + x3 := rfl
  have f2 : u32be (x0 :: x1 :: x2 :: x3 :: x4 :: x5 :: x6 :: x7 :: rest) 4 =
      x4 * 16777216 + x5 * 65536 + x6 * 256 + x7 := rfl
  rw [f1] at h1
  rw [f2] at h2
  have b0 : x0 < 256 := hb x0 (by simp)
  have b1 : x1 < 256 := hb x1 (by simp)
  have b2 : x2 < 256 := hb x2 (by simp)
  have b3 : x3 < 256 := hb x3 (by simp)
  have b4 : x4 < 256 := hb x4 (by simp)
  have b5 : x5 < 256 := hb x5 (by simp)
  have b6 : x6 < 256 := hb x6 (by simp)
  have b7 : x7 < 256 := hb x7 (by simp)
  have hx : x0 = 137 ∧ x1 = 80 ∧ x2 = 78 ∧ x3 = 71 ∧ x4 = 13 ∧ x5 = 10 ∧
      x6 = 26 ∧ x7 = 10 := by omega
  obtain ⟨e0, e1, e2, e3, e4, e5, e6, e7⟩ := hx
  subst e0 e1 e2 e3 e4 e5 e6 e7
  rfl

/-! ## Shape of the injected buffer -/

lemma inject_eq_chunk (buf t : List Nat) :
    injectPngMetadata buf t =
      buf.take 8 ++ (chunkBytes ⟨tEXtType, parametersKeyword ++ 0 :: t⟩ ++ buf.drop 8) := by
  unfold injectPngMetadata chunkBytes
  rw [show ((⟨tEXtType, parametersKeyword ++ 0 :: t⟩ : RawChunk).data.length) =
      parametersKeyword.length + 1 + t.length from by simp; omega]
  simp [List.append_assoc]

lemma firstNull_params (t : List Nat) :
    firstNull (parametersKeyword ++ 0 :: t) = some 10 := by
  simp [parametersKeyword, firstNull]

lemma chunkText_inject (t : List Nat) :
    chunkText ⟨tEXtType, parametersKeyword ++ 0 :: t⟩ = some t := by
  have h1 : (parametersKeyword ++ 0 :: t).take 10 = parametersKeyword :=
    List.take_left' rfl
  have h2 : (parametersKeyword ++ 0 :: t).drop (10 + 1) = t := by
    rw [show parametersKeyword ++ 0 :: t = (parametersKeyword ++ [0]) ++ t from by simp]
    exact List.drop_left' rfl
  unfold chunkText
  simp only [firstNull_params, h1, h2]
  simp

/-- Valid-signature round trip: extraction after injection yields the injected
text, except that an empty text is reported as `null` (line 88's truthiness
test). -/
lemma extract_inject (buf t : List Nat) (hb : ∀ x ∈ buf, x < 256)
    (hs : validSignature buf) (hlen : t.length + 11 < 4294967296) :
    extractPngMetadata (injectPngMetadata buf t) =
      .ok (if t = [] then none else some t) := by
  have hout : injectPngMetadata buf t =
      pngSignature ++ (chunkBytes ⟨tEXtType, parametersKeyword ++ 0 :: t⟩ ++ buf.drop 8) := by
    rw [inject_eq_chunk, take8_signature buf hb hs]
  rw [hout]
  unfold extractPngMetadata
  rw [if_pos (validSignature_append _)]
  have h8 : (8 : Nat) = pngSignature.length := rfl
  nth_rewrite 2 [h8]
  rw [extractScan_step_found pngSignature ⟨tEXtType, parametersKeyword ++ 0 :: t⟩
    (buf.drop 8) rfl (by simp [parametersKeyword]; omega) t (chunkText_inject t)]

end ExifExists

namespace ExifExists

/-! ## Derived facts about injection -/

lemma take8_length (buf : List Nat) (hlen : 8 ≤ buf.length) :
    (buf.take 8).length = 8 := by
  simp [List.length_take]
  omega

lemma inject_head_length (buf t : List Nat) (hlen : 8 ≤ buf.length) :
    (buf.take 8 ++ chunkBytes ⟨tEXtType, parametersKeyword ++ 0 :: t⟩).length =
      8 + (12 + parametersKeyword.length + 1 + t.length) := by
  have hc := chunkBytes_length ⟨tEXtType, parametersKeyword ++ 0 :: t⟩ rfl
  simp only [List.length_append, take8_length buf hlen, hc]
  simp [parametersKeyword]
  omega

lemma inject_tail (buf t : List Nat) (hlen : 8 ≤ buf.length) :
    (injectPngMetadata buf t).drop (8 + (12 + parametersKeyword.length + 1 + t.length)) =
      buf.drop 8 := by
  rw [inject_eq_chunk, ← List.append_assoc]
  exact List.drop_left' (inject_head_length buf t hlen)

lemma inject_length (buf t : List Nat) (hlen : 8 ≤ buf.length) :
    (injectPngMetadata buf t).length =
      buf.length + (12 + parametersKeyword.length + 1 + t.length) := by
  have hc := chunkBytes_length ⟨tEXtType, parametersKeyword ++ 0 :: t⟩ rfl
  rw [inject_eq_chunk]
  simp only [List.length_append, take8_length buf hlen, hc, List.length_drop]
  simp [parametersKeyword]
  omega

lemma inject_drop8 (buf t : List Nat) (hlen : 8 ≤ buf.length) :
    (injectPngMetadata buf t).drop 8 =
      chunkBytes ⟨tEXtType, parametersKeyword ++ 0 :: t⟩ ++ buf.drop 8 := by
  rw [inject_eq_chunk]
  exact List.drop_left' (take8_length buf hlen)

lemma chunk_head_fields (c : RawChunk) (hty : c.ty.length = 4) (D : List Nat) :
    (chunkBytes c ++ D).take 4 = u32beBytes c.data.length ∧
    ((chunkBytes c ++ D).drop 4).take 4 = c.ty := by
  rw [chunk_decomp]
  refine ⟨List.take_left' rfl, ?_⟩
  rw [List.drop_left' (u32beBytes_length _)]
  exact List.take_left' hty

/-! ## Chunk lists without an extractable keyword -/

lemma chunkText_none_of_keyword (c : RawChunk)
    (hno : ∀ k, chunkKeyword c = some k → k ≠ parametersKeyword) :
    chunkText c = none := by
  unfold chunkText
  by_cases htx : c.ty = tEXtType
  · rw [if_pos htx]
    cases hfn : firstNull c.data with
    | none => simp only [hfn]
    | some i =>
      have hk : chunkKeyword c = some (c.data.take i) := by
        unfold chunkKeyword
        rw [if_pos htx, hfn]
        rfl
      simp only [hfn]
      rw [if_neg (hno _ hk)]
  · rw [if_neg htx]

lemma firstParamsText_none (cs : List RawChunk)
    (h : ∀ c ∈ cs, chunkText c = none) : firstParamsText cs = none := by
  induction cs with
  | nil => rfl
  | cons c cs ih =>
    simp only [firstParamsText, h c (List.mem_cons_self _ _)]
    exact ih fun x hx => h x (List.mem_cons_of_mem _ hx)

end ExifExists

namespace ExifExists

set_option maxRecDepth 4000

/-! ## The claimed properties -/

/-- C1, counterexample.  The claim predicts that injection computes
`headerEnd = 8 + 4 + 4 + headerLength + 4` from the length field at offset 8
and splices the new chunk at `headerEnd` (after the IHDR chunk).  On a
concrete minimal PNG the code's output differs from that prediction: the code
splices at offset 8, before the header chunk. -/
theorem inject_not_after_header_counterexample :
    injectPngMetadata minimalPng [0x61] ≠
      minimalPng.take (8 + 4 + 4 + u32be minimalPng 8 + 4) ++
        (u32beBytes (parametersKeyword.length + 1 + 1) ++ tEXtType ++ parametersKeyword ++
          [0] ++ [0x61] ++
          u32beBytes (crc32 (tEXtType ++ parametersKeyword ++ [0] ++ [0x61]))) ++
        minimalPng.drop (8 + 4 + 4 + u32be minimalPng 8 + 4) := by
  decide

/-- C1, amended.  `injectPngMetadata` reads no header length and computes no
`headerEnd`: for any buffer of length at least 8 the output is
`original[0, 8) ++ newChunk ++ original[8, end)`, so the injected `tEXt` chunk
is the *first* chunk of the output, sitting before the header chunk; the
bytes following it are the entire original chunk sequence. -/
theorem inject_inserts_before_header (buf t : List Nat) (hlen : 8 ≤ buf.length) :
    injectPngMetadata buf t =
      buf.take 8 ++
        (u32beBytes (parametersKeyword.length + 1 + t.length) ++ tEXtType ++
          parametersKeyword ++ [0] ++ t ++
          u32beBytes (crc32 (tEXtType ++ parametersKeyword ++ [0] ++ t))) ++
        buf.drop 8 ∧
    ((injectPngMetadata buf t).drop 8).take 4 =
      u32beBytes (parametersKeyword.length + 1 + t.length) ∧
    (((injectPngMetadata buf t).drop 8).drop 4).take 4 = tEXtType ∧
    (injectPngMetadata buf t).drop (8 + (12 + parametersKeyword.length + 1 + t.length)) =
      buf.drop 8 := by
  refine ⟨rfl, ?_, ?_, inject_tail buf t hlen⟩
  · rw [inject_drop8 buf t hlen,
      (chunk_head_fields ⟨tEXtType, parametersKeyword ++ 0 :: t⟩ rfl (buf.drop 8)).1]
    congr 1
    simp [parametersKeyword]
    omega
  · rw [inject_drop8 buf t hlen,
      (chunk_head_fields ⟨tEXtType, parametersKeyword ++ 0 :: t⟩ rfl (buf.drop 8)).2]

theorem inject_inserts_before_header_witness :
    8 ≤ minimalPng.length ∧
      (injectPngMetadata minimalPng [0x61]).drop
          (8 + (12 + parametersKeyword.length + 1 + 1)) =
        minimalPng.drop 8 :=
  ⟨by decide, (inject_inserts_before_header minimalPng [0x61] (by decide)).2.2.2⟩

/-- C2, counterexample.  A PNG containing a `workflow` `tEXt` entry and a
`prompt` `tEXt` entry: the claim says both are collected; the code recognises
only the keyword `parameters`, so extraction returns `null`. -/
theorem extract_ignores_prompt_workflow_counterexample :
    extractPngMetadata
        (pngSignature ++
          chunksBytes
            [ihdrChunk, ⟨tEXtType, workflowKeyword ++ [0] ++ [0x78]⟩,
              ⟨tEXtType, promptKeyword ++ [0] ++ [0x79]⟩, iendChunk]) =
      .ok none := by
  rw [extract_chunks _ (by decide)]
  decide

/-- C2, amended.  On a signature plus any well-formed chunk sequence,
extraction returns exactly `extractModel`: the text of the *first* `tEXt`
chunk whose keyword is `parameters` (empty text coerced to `null`); entries
with keyword `prompt` or `workflow` are never collected, and at most one
entry is ever returned. -/
theorem extract_first_parameters_only (cs : List RawChunk)
    (hwf : ∀ c ∈ cs, c.wf) :
    extractPngMetadata (pngSignature ++ chunksBytes cs) = .ok (extractModel cs) :=
  extract_chunks cs hwf

theorem extract_first_parameters_only_witness :
    extractPngMetadata
        (pngSignature ++
          chunksBytes
            [ihdrChunk, ⟨tEXtType, parametersKeyword ++ [0] ++ [0x68, 0x69]⟩,
              ⟨tEXtType, promptKeyword ++ [0] ++ [0x79]⟩, iendChunk]) =
      .ok (some [0x68, 0x69]) := by
  rw [extract_first_parameters_only _ (by decide)]
  decide

/-- C3, counterexample.  On the signature-less buffer `[0,0,0,0,0,0,0,0]`
(first 8 bytes differ from the PNG signature) the inject path does not fail:
`handleInject` succeeds and produces an output buffer — the zero bytes are
copied around the new chunk.  (The claim is right about `extract`, wrong
about `inject`, which never validates the signature.) -/
theorem inject_no_signature_check_counterexample :
    ¬ validSignature [0, 0, 0, 0, 0, 0, 0, 0] ∧
      handleInject (some (Metadata.png [])) FileType.png [0, 0, 0, 0, 0, 0, 0, 0] =
        .output
          [0, 0, 0, 0, 0, 0, 0, 0, 0, 0, 0, 11, 116, 69, 88, 116, 112, 97, 114, 97,
            109, 101, 116, 101, 114, 115, 0, 9, 170, 105, 17] := by
  constructor
  · decide
  · decide

/-- C3, amended.  On a buffer whose first 8 bytes differ from the PNG
signature, `extractPngMetadata` fails with the invalid-format error before
any chunk parsing; `injectPngMetadata` performs no signature validation at
all, so the inject path proceeds and returns an output buffer. -/
theorem invalid_signature_extract_fails_inject_proceeds (buf d : List Nat)
    (h : ¬ validSignature buf) :
    extractPngMetadata buf = .invalidFormat ∧
      handleInject (some (Metadata.png d)) FileType.png buf =
        .output (injectPngMetadata buf d) := by
  constructor
  · unfold extractPngMetadata
    rw [if_neg h]
  · simp [handleInject, Metadata.tag]

theorem invalid_signature_extract_fails_inject_proceeds_witness :
    extractPngMetadata [0, 0, 0, 0, 0, 0, 0, 1] = .invalidFormat ∧
      handleInject (some (Metadata.png [0x61])) FileType.png [0, 0, 0, 0, 0, 0, 0, 1] =
        .output (injectPngMetadata [0, 0, 0, 0, 0, 0, 0, 1] [0x61]) :=
  invalid_signature_extract_fails_inject_proceeds [0, 0, 0, 0, 0, 0, 0, 1] [0x61]
    (by decide)

/-- C4.  The table-driven `crc32` of the source agrees with the bit-at-a-time
PNG reference CRC-32 on every byte sequence, and on the ASCII bytes of
`"IEND"` it yields the well-known constant `0xAE426082`. -/
theorem crc32_matches_png_reference :
    (∀ buf : List Nat, (∀ b ∈ buf, b < 256) → crc32 buf = crc32Reference buf) ∧
      crc32 [0x49, 0x45, 0x4e, 0x44] = 0xae426082 :=
  ⟨crc32_eq_reference, by decide⟩

theorem crc32_matches_png_reference_witness :
    crc32 [0x49, 0x45, 0x4e, 0x44] = crc32Reference [0x49, 0x45, 0x4e, 0x44] :=
  crc32_matches_png_reference.1 [0x49, 0x45, 0x4e, 0x44] (by decide)

/-- C5, counterexample.  Injecting the *empty* text into the minimal PNG and
extracting returns `null`, not the entry `{keyword: "parameters", text: ""}`:
line 88's truthiness test (`parameters ? ... : null`) coerces the empty
string to `null`. -/
theorem roundtrip_empty_text_counterexample :
    extractPngMetadata (injectPngMetadata minimalPng []) = .ok none ∧
      ExtractResult.ok none ≠ ExtractResult.ok (some ([] : List Nat)) := by
  constructor
  · rw [extract_inject minimalPng [] (by decide) (by decide) (by decide)]
    decide
  · decide

/-- C5, amended.  For every buffer with a valid PNG signature (the synthetic
minimal PNGs of the claim included) and every *non-empty* text `t` (of
32-bit-representable length), injecting `{keyword: "parameters", text: t}`
and extracting returns exactly that one entry. -/
theorem roundtrip_nonempty_text (buf t : List Nat) (hb : ∀ x ∈ buf, x < 256)
    (hs : validSignature buf) (hne : t ≠ []) (hlen : t.length + 11 < 4294967296) :
    extractPngMetadata (injectPngMetadata buf t) = .ok (some t) := by
  rw [extract_inject buf t hb hs hlen, if_neg hne]

theorem roundtrip_nonempty_text_witness :
    extractPngMetadata (injectPngMetadata minimalPng [0x68, 0x69]) =
      .ok (some [0x68, 0x69]) :=
  roundtrip_nonempty_text minimalPng [0x68, 0x69] (by decide) (by decide)
    (by decide) (by decide)

/-- C6, counterexample.  With PNG-variant metadata cached and a target
declared `webp` — a declared type the cached tag certainly does not match —
the claim demands a `FormatMismatch` failure; the code's mismatch checks only
cover `png` and `jpeg` targets, so `handleInject` falls through and ends
silently (no error status, no output). -/
theorem format_mismatch_webp_counterexample :
    handleInject (some (Metadata.png [0x61])) FileType.webp [] = .silent ∧
      InjectOutcome.silent ≠ InjectOutcome.formatMismatch := by
  constructor
  · decide
  · decide

/-- C6, amended.  For a target declared `png` or `jpeg`, if the cached
variant tag does not match the declared type, `handleInject` fails with
`FormatMismatch` — an outcome that carries no output bytes and leaves the
target untouched.  (A `webp` target bypasses the mismatch check entirely.) -/
theorem format_mismatch_rejects (m : Metadata) (ft : FileType) (buf : List Nat)
    (h : (ft = .png ∧ m.tag ≠ .png) ∨ (ft = .jpeg ∧ m.tag ≠ .jpg)) :
    handleInject (some m) ft buf = .formatMismatch := by
  rcases h with ⟨hft, htag⟩ | ⟨hft, htag⟩ <;> subst hft <;> cases m
  · exact absurd rfl htag
  · rfl
  · rfl
  · exact absurd rfl htag

theorem format_mismatch_rejects_witness :
    handleInject (some Metadata.jpg) FileType.png [0x89] = .formatMismatch :=
  format_mismatch_rejects Metadata.jpg FileType.png [0x89]
    (Or.inl ⟨rfl, by decide⟩)

/-- C7.  For any valid-signature input, the output of injection is a fresh
buffer (the embedding of `injectPngMetadata` is a pure function of the input;
the source allocates a new `Uint8Array` and never writes to the input) whose
length is the input length plus the injected chunk's
`12 + len("parameters") + 1 + len(text)` bytes, and whose tail after the
insertion point is byte-for-byte the original tail `original[8, end)` — in
particular of the same length, so no IDAT/IEND bytes are lost or
duplicated. -/
theorem inject_pure_length_tail (buf t : List Nat) (hb : ∀ x ∈ buf, x < 256)
    (hs : validSignature buf) :
    (injectPngMetadata buf t).length =
      buf.length + (12 + parametersKeyword.length + 1 + t.length) ∧
    (injectPngMetadata buf t).drop (8 + (12 + parametersKeyword.length + 1 + t.length)) =
      buf.drop 8 ∧
    ((injectPngMetadata buf t).drop
        (8 + (12 + parametersKeyword.length + 1 + t.length))).length =
      (buf.drop 8).length := by
  have hlen := length_of_validSignature buf hb hs
  refine ⟨inject_length buf t hlen, inject_tail buf t hlen, ?_⟩
  rw [inject_tail buf t hlen]

theorem inject_pure_length_tail_witness :
    (injectPngMetadata minimalPng [0x61]).length =
      minimalPng.length + (12 + parametersKeyword.length + 1 + 1) :=
  (inject_pure_length_tail minimalPng [0x61] (by decide) (by decide)).1

/-- C8, counterexample.  With metadata cached and a file declared `webp`,
`handleInject` neither rejects nor signals anything: no branch applies,
`finalBlob` stays `null`, and the function returns with no status change and
no output (`.silent`) — there is no "unsupported" rejection on the inject
path. -/
theorem webp_inject_silent_counterexample :
    handleInject (some (Metadata.png [0x62])) FileType.webp [0x00] = .silent ∧
      handleExtract FileType.webp [0x00] = .webpWarning := by
  constructor
  · decide
  · decide

/-- C8, amended.  A file declared `webp` is turned away before any codec work
on the *extract* path, with its own distinct warning status; on the *inject*
path it is not rejected at all — `handleInject` silently produces neither
output nor any error signal. -/
theorem webp_extract_warns_inject_silent :
    (∀ buf : List Nat, handleExtract FileType.webp buf = .webpWarning) ∧
      ∀ (m : Metadata) (buf : List Nat),
        handleInject (some m) FileType.webp buf = .silent := by
  constructor
  · intro buf
    rfl
  · intro m buf
    cases m <;> rfl

/-- C9.  A well-formed PNG whose chunks offer no recognised keyword — no
`tEXt` chunk splitting at a `0x00` into a keyword in
{`parameters`, `prompt`, `workflow`} — extracts to `null` as a normal `ok`
outcome, not an error; in particular a `tEXt` chunk whose data has no `0x00`
separator offers no keyword at all and is skipped without aborting the
scan. -/
theorem no_recognized_keyword_returns_null (cs : List RawChunk)
    (hwf : ∀ c ∈ cs, c.wf)
    (hno : ∀ c ∈ cs, ∀ k, chunkKeyword c = some k →
      k ≠ parametersKeyword ∧ k ≠ promptKeyword ∧ k ≠ workflowKeyword) :
    extractPngMetadata (pngSignature ++ chunksBytes cs) = .ok none := by
  rw [extract_chunks cs hwf]
  have hnone : ∀ c ∈ cs, chunkText c = none := fun c hc =>
    chunkText_none_of_keyword c fun k hk => (hno c hc k hk).1
  unfold extractModel
  rw [firstParamsText_none cs hnone]

theorem no_recognized_keyword_returns_null_witness :
    extractPngMetadata
        (pngSignature ++ chunksBytes [ihdrChunk, ⟨tEXtType, [1, 2, 3]⟩, iendChunk]) =
      .ok none := by
  refine no_recognized_keyword_returns_null _ (by decide) ?_
  intro c hc k hk
  fin_cases hc <;>
    simp [chunkKeyword, ihdrChunk, iendChunk, tEXtType, firstNull] at hk

/-- C10, counterexample.  A PNG with two `parameters` `tEXt` chunks where the
first carries the empty text: the scan does stop at the first chunk, but the
result is `null`, not that chunk's (empty) text, because of line 88's
truthiness coercion. -/
theorem first_parameters_empty_counterexample :
    extractPngMetadata
        (pngSignature ++
          chunksBytes
            [⟨tEXtType, parametersKeyword ++ [0]⟩,
              ⟨tEXtType, parametersKeyword ++ [0] ++ [0x78]⟩, iendChunk]) =
      .ok none ∧
      ExtractResult.ok none ≠ ExtractResult.ok (some ([] : List Nat)) := by
  constructor
  · rw [extract_chunks _ (by decide)]
    decide
  · decide

/-- C10, amended.  If the chunks before some `parameters` `tEXt` chunk `c`
yield nothing, the scan stops at `c` and returns `c`'s text (when that text
is non-empty; an empty text becomes `null`), *whatever bytes follow `c`* —
the trailing `rest` is arbitrary, so no later `tEXt` chunk (in particular no
second `parameters` chunk) can affect the result. -/
theorem first_parameters_chunk_wins (csp : List RawChunk) (c : RawChunk)
    (rest : List Nat) (hwf : ∀ x ∈ csp, x.wf)
    (hnone : ∀ x ∈ csp, chunkText x = none) (hty : c.ty.length = 4)
    (hd : c.data.length < 4294967296) (t : List Nat) (hct : chunkText c = some t)
    (hne : t ≠ []) :
    extractPngMetadata (pngSignature ++ (chunksBytes csp ++ (chunkBytes c ++ rest))) =
      .ok (some t) := by
  unfold extractPngMetadata
  rw [if_pos (validSignature_append _)]
  rw [extractScan_skip_then_found csp c rest hwf hnone hty hd t hct]
  simp [hne]

theorem first_parameters_chunk_wins_witness :
    extractPngMetadata
        (pngSignature ++
          (chunksBytes [ihdrChunk] ++
            (chunkBytes ⟨tEXtType, parametersKeyword ++ [0] ++ [0x61]⟩ ++
              (chunkBytes ⟨tEXtType, parametersKeyword ++ [0] ++ [0x7a, 0x7a]⟩ ++
                chunkBytes iendChunk)))) =
      .ok (some [0x61]) := by
  have h := first_parameters_chunk_wins [ihdrChunk]
    ⟨tEXtType, parametersKeyword ++ [0] ++ [0x61]⟩
    (chunkBytes ⟨tEXtType, parametersKeyword ++ [0] ++ [0x7a, 0x7a]⟩ ++
      chunkBytes iendChunk)
    (by decide) (by decide) (by decide) (by decide) [0x61] (by decide) (by decide)
  simpa using h

end ExifExists
